import Mathlib

/-!
Shallow embedding of the GIF decoding/compositing core of `src/main.c`
(`load_gif`, `update_gif`) together with the giflib data it consumes.

Modelling conventions:
* A slurped GIF file (`GifFileType` after `DGifSlurp`) is the input: the
  logical-screen size, the optional global color table, and the list of
  saved images.  Each saved image carries its giflib image descriptor
  (left/top/width/height parsed from unsigned 16-bit fields, hence `Nat`),
  its raster (one palette index per pixel) and the graphics-control block
  that `DGifSavedExtensionToGCB` yields for it (giflib fills in the
  defaults `DISPOSAL_UNSPECIFIED` / delay 0 / `NO_TRANSPARENT_COLOR = -1`
  when no extension is present, so the GCB is total per image).
* An RGBA32 surface pixel is either fully transparent (`none`, the
  RGBA(0,0,0,0) fill of `SDL_FillRect`) or a fully opaque RGB color
  (`some c`, written with alpha 0xFF).  `SDL_BlitSurface` between two such
  surfaces with `SDL_BLENDMODE_BLEND` copies opaque source pixels and
  leaves the destination alone under transparent ones.
* The pixel buffer is flat, indexed by `ty * width + tx` (the C code
  writes `((Uint32*)pixels)[ty * pitch/4 + tx]` with `pitch/4 = width`
  for a tightly packed RGBA32 surface).  `drawPixelT` additionally
  records the flat index of every store it performs, so that claims
  about buffer bounds can speak about the set of written indices.
* `color_map->Colors[color_index]` in the C code is an unchecked array
  read; the embedding renders it total with `List.getD` (default black).
* `SDL_CreateTextureFromSurface` is external; a frame slot is modelled as
  `Option Surface`, `none` standing for the slot `load_gif` leaves
  unwritten when it `continue`s on a missing color map.
-/

namespace GifClock

structure GifColorType where
  red : Nat
  green : Nat
  blue : Nat
deriving DecidableEq, Repr

structure ColorMapObject where
  colors : List GifColorType
deriving DecidableEq, Repr

structure GifImageDesc where
  left : Nat
  top : Nat
  width : Nat
  height : Nat
  colorMap : Option ColorMapObject
deriving DecidableEq, Repr

structure GraphicsControlBlock where
  disposalMode : Nat
  delayTime : Nat
  transparentColor : Int
deriving DecidableEq, Repr

structure SavedImage where
  imageDesc : GifImageDesc
  rasterBits : List Nat
  gcb : GraphicsControlBlock
deriving DecidableEq, Repr

structure GifFileType where
  sWidth : Nat
  sHeight : Nat
  sColorMap : Option ColorMapObject
  savedImages : List SavedImage
deriving DecidableEq, Repr

def DISPOSAL_UNSPECIFIED : Nat := 0

def DISPOSE_DO_NOT : Nat := 1

def DISPOSE_BACKGROUND : Nat := 2

def DISPOSE_PREVIOUS : Nat := 3

def NO_TRANSPARENT_COLOR : Int := -1

abbrev Pixel := Option GifColorType

structure Surface where
  width : Nat
  height : Nat
  pixels : List Pixel
deriving DecidableEq, Repr

/-- `SDL_CreateRGBSurfaceWithFormat` followed by the RGBA(0,0,0,0)
`SDL_FillRect` of line 61: a `w × h` surface of fully transparent pixels. -/
def mkSurface (w h : Nat) : Surface :=
  ⟨w, h, List.replicate (w * h) none⟩

/-- Per-pixel effect of `SDL_BlitSurface` under `SDL_BLENDMODE_BLEND` when
every pixel is either alpha 0 or alpha 0xFF: an opaque source pixel
replaces the destination, a transparent one leaves it alone. -/
def blendPixel (dst src : Pixel) : Pixel :=
  match src with
  | some c => some c
  | none => dst

/-- `SDL_BlitSurface(src, NULL, dst, NULL)` for two same-size surfaces. -/
def blitSurface (src dst : Surface) : Surface :=
  ⟨dst.width, dst.height, List.zipWith blendPixel dst.pixels src.pixels⟩

/-- The store `((Uint32*)pixels)[ty * width + tx] = pixel` of line 80. -/
def setPixel (s : Surface) (tx ty : Nat) (p : Pixel) : Surface :=
  ⟨s.width, s.height, s.pixels.set (ty * s.width + tx) p⟩

/-- Body of the inner drawing loop (lines 71-81) for coordinates `(x, y)`
of the sub-image raster.  The second component of the state records the
flat buffer index of every write performed. -/
def drawPixelT (gcb : GraphicsControlBlock) (cm : ColorMapObject)
    (img : SavedImage) (st : Surface × List Nat) (y x : Nat) :
    Surface × List Nat :=
  let colorIndex := img.rasterBits.getD (y * img.imageDesc.width + x) 0
  if (colorIndex : Int) = gcb.transparentColor then st
  else
    let color := cm.colors.getD colorIndex ⟨0, 0, 0⟩
    let tx := img.imageDesc.left + x
    let ty := img.imageDesc.top + y
    if tx < st.1.width ∧ ty < st.1.height then
      (setPixel st.1 tx ty (some color), st.2 ++ [ty * st.1.width + tx])
    else st

/-- The two nested drawing loops of lines 69-83, instrumented with the
list of flat indices written. -/
def drawImageT (gcb : GraphicsControlBlock) (cm : ColorMapObject)
    (img : SavedImage) (surf : Surface) : Surface × List Nat :=
  (List.range img.imageDesc.height).foldl
    (fun st y =>
      (List.range img.imageDesc.width).foldl
        (fun st2 x => drawPixelT gcb cm img st2 y x) st)
    (surf, [])

/-- The drawing loops of lines 69-83: the surface after the sub-image is
drawn onto it. -/
def drawImage (gcb : GraphicsControlBlock) (cm : ColorMapObject)
    (img : SavedImage) (surf : Surface) : Surface :=
  (drawImageT gcb cm img surf).1

/-- Line 52: `gif->SColorMap ? gif->SColorMap : frame->ImageDesc.ColorMap`. -/
def resolveColorMap (gif : GifFileType) (frame : SavedImage) :
    Option ColorMapObject :=
  match gif.sColorMap with
  | some m => some m
  | none => frame.imageDesc.colorMap

/-- One iteration of the frame loop of `load_gif` (lines 46-94), recording
the base canvas it started from, the frame surface just before and just
after the drawing loops (both absent when the frame is skipped for lack of
a color map), the base canvas it leaves behind, and the stored delay. -/
structure FrameOut where
  baseBefore : Surface
  preDraw : Option Surface
  drawn : Option Surface
  baseAfter : Surface
  delay : Nat
deriving DecidableEq, Repr

def stepFrame (gif : GifFileType) (i : Nat) (base : Surface)
    (frame : SavedImage) : FrameOut :=
  let gcb := frame.gcb
  let delay := if 0 < gcb.delayTime then gcb.delayTime * 10 else 100
  match resolveColorMap gif frame with
  | none => ⟨base, none, none, base, delay⟩
  | some cm =>
    let fs0 := mkSurface gif.sWidth gif.sHeight
    let fs1 := if 0 < i ∧ gcb.disposalMode = DISPOSE_DO_NOT then
        blitSurface base fs0 else fs0
    let fs2 := drawImage gcb cm frame fs1
    let base2 := if gcb.disposalMode = DISPOSE_DO_NOT then
        blitSurface fs2 base else base
    ⟨base, some fs1, some fs2, base2, delay⟩

def runFrames (gif : GifFileType) : Nat → Surface → List SavedImage → List FrameOut
  | _, _, [] => []
  | i, base, frame :: rest =>
    let out := stepFrame gif i base frame
    out :: runFrames gif (i + 1) out.baseAfter rest

/-- The whole frame loop of `load_gif`, starting from the fully
transparent `base_surface` of lines 43-44. -/
def frameOuts (gif : GifFileType) : List FrameOut :=
  runFrames gif 0 (mkSurface gif.sWidth gif.sHeight) gif.savedImages

structure GIFAnimation where
  frames : List (Option Surface)
  delays : List Nat
  frameCount : Nat
  width : Nat
  height : Nat
deriving DecidableEq, Repr

/-- `load_gif` on an already slurped file: after `DGifSlurp` succeeds the
function always returns an animation (lines 33-98); it has no further
error path. -/
def loadGif (gif : GifFileType) : GIFAnimation :=
  let outs := frameOuts gif
  ⟨outs.map (·.drawn), outs.map (·.delay), gif.savedImages.length,
    gif.sWidth, gif.sHeight⟩

/-- The `while` loop of `update_gif` (lines 105-109), fuelled: state is
`(current_frame, elapsed)`; the loop body subtracts the current frame's
delay and advances `current_frame` modulo `frame_count`. -/
def updateLoop (delays : List Nat) (frameCount : Nat) :
    Nat → Nat → Nat → Nat × Nat
  | 0, cur, elapsed => (cur, elapsed)
  | fuel + 1, cur, elapsed =>
    if delays.getD cur 0 ≤ elapsed then
      updateLoop delays frameCount fuel ((cur + 1) % frameCount)
        (elapsed - delays.getD cur 0)
    else (cur, elapsed)

/-! Concrete fixtures used by witnesses and counterexamples. -/

def red : GifColorType := ⟨255, 0, 0⟩

def blue : GifColorType := ⟨0, 0, 255⟩

def gtab : ColorMapObject := ⟨[red]⟩

def ltab : ColorMapObject := ⟨[blue]⟩

/-! General lemmas about the embedding. -/

theorem stepFrame_baseBefore (gif : GifFileType) (i : Nat) (base : Surface)
    (frame : SavedImage) : (stepFrame gif i base frame).baseBefore = base := by
  cases h : resolveColorMap gif frame <;> simp [stepFrame, h]

theorem stepFrame_delay (gif : GifFileType) (i : Nat) (base : Surface)
    (frame : SavedImage) :
    (stepFrame gif i base frame).delay =
      if 0 < frame.gcb.delayTime then frame.gcb.delayTime * 10 else 100 := by
  cases h : resolveColorMap gif frame <;> simp [stepFrame, h]

theorem stepFrame_drawn_none (gif : GifFileType) (i : Nat) (base : Surface)
    (frame : SavedImage) (hcm : resolveColorMap gif frame = none) :
    (stepFrame gif i base frame).drawn = none := by
  simp [stepFrame, hcm]

theorem stepFrame_preDraw_some (gif : GifFileType) (i : Nat) (base : Surface)
    (frame : SavedImage) (cm : ColorMapObject)
    (hcm : resolveColorMap gif frame = some cm) :
    (stepFrame gif i base frame).preDraw =
      some (if 0 < i ∧ frame.gcb.disposalMode = DISPOSE_DO_NOT then
          blitSurface base (mkSurface gif.sWidth gif.sHeight)
        else mkSurface gif.sWidth gif.sHeight) := by
  simp [stepFrame, hcm]

theorem stepFrame_baseAfter_of_mode_ne (gif : GifFileType) (i : Nat)
    (base : Surface) (frame : SavedImage)
    (h : frame.gcb.disposalMode ≠ DISPOSE_DO_NOT) :
    (stepFrame gif i base frame).baseAfter = base := by
  cases hcm : resolveColorMap gif frame <;> simp [stepFrame, hcm, h]

theorem runFrames_length (gif : GifFileType) :
    ∀ (imgs : List SavedImage) (i : Nat) (base : Surface),
      (runFrames gif i base imgs).length = imgs.length
  | [], _, _ => rfl
  | _ :: rest, i, base => by
    simp [runFrames, runFrames_length gif rest]

theorem frameOuts_length (gif : GifFileType) :
    (frameOuts gif).length = gif.savedImages.length :=
  runFrames_length gif _ _ _

theorem runFrames_get (gif : GifFileType) :
    ∀ (imgs : List SavedImage) (k i : Nat) (base : Surface) (r : FrameOut),
      (runFrames gif i base imgs).get? k = some r →
      ∃ img, imgs.get? k = some img ∧ r = stepFrame gif (i + k) r.baseBefore img
  | [], k, _, _, _, h => by simp [runFrames] at h
  | img :: rest, 0, i, base, r, h => by
    refine ⟨img, rfl, ?_⟩
    simp [runFrames] at h
    subst h
    rw [stepFrame_baseBefore, Nat.add_zero]
  | img :: rest, k + 1, i, base, r, h => by
    simp only [runFrames, List.get?_cons_succ] at h
    obtain ⟨img2, hget, hr⟩ := runFrames_get gif rest k (i + 1) _ r h
    refine ⟨img2, hget, ?_⟩
    have hik : i + (k + 1) = i + 1 + k := by omega
    rw [hik]
    exact hr

theorem frameOuts_get (gif : GifFileType) (k : Nat) (r : FrameOut)
    (h : (frameOuts gif).get? k = some r) :
    ∃ img, gif.savedImages.get? k = some img ∧
      r = stepFrame gif k r.baseBefore img := by
  obtain ⟨img, hget, hr⟩ := runFrames_get gif gif.savedImages k 0 _ r h
  exact ⟨img, hget, by simpa using hr⟩

theorem runFrames_map_delay (gif : GifFileType) :
    ∀ (imgs : List SavedImage) (i : Nat) (base : Surface),
      (runFrames gif i base imgs).map (·.delay) =
        imgs.map (fun img =>
          if 0 < img.gcb.delayTime then img.gcb.delayTime * 10 else 100)
  | [], _, _ => rfl
  | img :: rest, i, base => by
    simp [runFrames, stepFrame_delay, runFrames_map_delay gif rest]

theorem loadGif_delays (gif : GifFileType) :
    (loadGif gif).delays = gif.savedImages.map (fun img =>
      if 0 < img.gcb.delayTime then img.gcb.delayTime * 10 else 100) :=
  runFrames_map_delay gif _ _ _

theorem loadGif_delays_length (gif : GifFileType) :
    (loadGif gif).delays.length = (loadGif gif).frameCount := by
  rw [loadGif_delays]
  simp [loadGif]

theorem foldl_fixed {α β : Type} (f : α → β → α) (l : List β)
    (h : ∀ b ∈ l, ∀ x, f x b = x) : ∀ a, l.foldl f a = a := by
  induction l with
  | nil => intro a; rfl
  | cons b t ih =>
    intro a
    rw [List.foldl_cons, h b (List.mem_cons_self b t)]
    exact ih (fun c hc x => h c (List.mem_cons_of_mem b hc) x) a

theorem foldl_inv {α β : Type} (P : α → Prop) (f : α → β → α) (l : List β)
    (hf : ∀ x b, P x → P (f x b)) : ∀ a, P a → P (l.foldl f a) := by
  induction l with
  | nil => intro a ha; exact ha
  | cons b t ih =>
    intro a ha
    rw [List.foldl_cons]
    exact ih (f a b) (hf a b ha)

theorem getD_mem {α : Type} : ∀ (l : List α) (n : Nat), n < l.length →
    ∀ d, l.getD n d ∈ l
  | a :: t, 0, _, _ => List.mem_cons_self a t
  | a :: t, n + 1, h, d =>
    List.mem_cons_of_mem a (getD_mem t n (by simpa using h) d)

theorem zipWith_blend_replicate (n : Nat) (l : List Pixel) (h : l.length = n) :
    List.zipWith blendPixel l (List.replicate n none) = l := by
  induction n generalizing l with
  | zero =>
    cases l with
    | nil => rfl
    | cons a t => simp at h
  | succ n ih =>
    cases l with
    | nil => simp at h
    | cons a t =>
      simp only [List.replicate_succ, List.zipWith_cons_cons]
      rw [ih t (by simpa using h)]
      rfl

theorem blitSurface_blank (w h : Nat) (s : Surface)
    (hlen : s.pixels.length = w * h) :
    blitSurface (mkSurface w h) s = s := by
  cases s with
  | mk sw sh px =>
    simp only [blitSurface, mkSurface]
    rw [zipWith_blend_replicate (w * h) px (by simpa using hlen)]

theorem updateLoop_spec (delays : List Nat) (frameCount : Nat)
    (hlen : delays.length = frameCount)
    (hpos : ∀ d ∈ delays, 0 < d) :
    ∀ (fuel cur elapsed : Nat), elapsed < fuel → cur < frameCount →
      (updateLoop delays frameCount fuel cur elapsed).1 < frameCount ∧
      (updateLoop delays frameCount fuel cur elapsed).2 <
        delays.getD (updateLoop delays frameCount fuel cur elapsed).1 0 ∧
      ∀ fuel2, elapsed < fuel2 →
        updateLoop delays frameCount fuel2 cur elapsed =
          updateLoop delays frameCount fuel cur elapsed := by
  intro fuel
  induction fuel with
  | zero => intro cur elapsed hf; omega
  | succ f ih =>
    intro cur elapsed hf hcur
    have hd : 0 < delays.getD cur 0 :=
      hpos _ (getD_mem delays cur (by omega) 0)
    by_cases hle : delays.getD cur 0 ≤ elapsed
    · have hcur2 : (cur + 1) % frameCount < frameCount :=
        Nat.mod_lt _ (by omega)
      have helap2 : elapsed - delays.getD cur 0 < f := by omega
      have hmain := ih ((cur + 1) % frameCount)
        (elapsed - delays.getD cur 0) helap2 hcur2
      have hunf : updateLoop delays frameCount (f + 1) cur elapsed =
          updateLoop delays frameCount f ((cur + 1) % frameCount)
            (elapsed - delays.getD cur 0) := by
        rw [updateLoop, if_pos hle]
      refine ⟨by rw [hunf]; exact hmain.1, by rw [hunf]; exact hmain.2.1, ?_⟩
      intro fuel2 hf2
      cases fuel2 with
      | zero => omega
      | succ f2 =>
        have hunf2 : updateLoop delays frameCount (f2 + 1) cur elapsed =
            updateLoop delays frameCount f2 ((cur + 1) % frameCount)
              (elapsed - delays.getD cur 0) := by
          rw [updateLoop, if_pos hle]
        rw [hunf2, hunf]
        exact hmain.2.2 f2 (by omega)
    · have hunf : updateLoop delays frameCount (f + 1) cur elapsed =
          (cur, elapsed) := by
        rw [updateLoop, if_neg hle]
      refine ⟨by rw [hunf]; exact hcur, by rw [hunf]; simpa using hle, ?_⟩
      intro fuel2 hf2
      rw [hunf]
      cases fuel2 with
      | zero => omega
      | succ f2 => rw [updateLoop, if_neg hle]

def imgC1 : SavedImage := ⟨⟨0, 0, 1, 1, some ltab⟩, [0], ⟨0, 0, -1⟩⟩

def gifC1 : GifFileType := ⟨1, 1, some gtab, [imgC1]⟩

def gifC1loc : GifFileType := ⟨1, 1, none, [imgC1]⟩

def imgC4 : SavedImage := ⟨⟨0, 0, 1, 1, none⟩, [3], ⟨0, 0, -1⟩⟩

def gifC4 : GifFileType := ⟨1, 1, some gtab, [imgC4]⟩

def imgE0 : SavedImage := ⟨⟨0, 0, 1, 1, none⟩, [0], ⟨0, 0, -1⟩⟩

def imgE1 : SavedImage := ⟨⟨0, 0, 1, 1, some ltab⟩, [0], ⟨0, 0, -1⟩⟩

def gifC5 : GifFileType := ⟨1, 1, none, [imgE0, imgE1]⟩

def gifC6 : GifFileType := ⟨1, 1, some gtab, []⟩

/-- C1: counterexample.  With a global table and a distinct local table
both present, line 52 (`gif->SColorMap ? gif->SColorMap :
frame->ImageDesc.ColorMap`) resolves to the global table, not the local
one, so the claim "local overrides global" is false on this input. -/
theorem c1_counterexample :
    gifC1.sColorMap = some gtab ∧
    imgC1.imageDesc.colorMap = some ltab ∧
    resolveColorMap gifC1 imgC1 = some gtab ∧
    gtab ≠ ltab := by decide

/-- C1 (amended): for every decoded sub-image, the resolved color table is
the file's global color table whenever one is present, and the sub-image's
local table only when no global table exists (global overrides local). -/
theorem c1_amended (gif : GifFileType) (frame : SavedImage) :
    (∀ m, gif.sColorMap = some m → resolveColorMap gif frame = some m) ∧
    (gif.sColorMap = none →
      resolveColorMap gif frame = frame.imageDesc.colorMap) := by
  constructor
  · intro m hm
    simp [resolveColorMap, hm]
  · intro hm
    simp [resolveColorMap, hm]

/-- C1 amended witness: both branches at concrete inputs. -/
theorem c1_amended_witness :
    resolveColorMap gifC1 imgC1 = some gtab ∧
    resolveColorMap gifC1loc imgC1 = imgC1.imageDesc.colorMap :=
  ⟨(c1_amended gifC1 imgC1).1 gtab rfl, (c1_amended gifC1loc imgC1).2 rfl⟩

/-- C4: evaluation at the failing input.  The raster holds index 3, the
resolved table has a single entry, and no transparency is set; `load_gif`
performs no range check and raises no error — the unchecked
`color_map->Colors[3]` read (an out-of-bounds access, rendered total in
the model) is used and a frame is emitted anyway. -/
theorem c4_no_error :
    gtab.colors.length ≤ 3 ∧
    (3 : Int) ≠ imgC4.gcb.transparentColor ∧
    resolveColorMap gifC4 imgC4 = some gtab ∧
    (loadGif gifC4).frameCount = 1 ∧
    (loadGif gifC4).frames = [some ⟨1, 1, [some ⟨0, 0, 0⟩]⟩] := by decide

/-- C5: counterexample.  A first sub-image with neither local nor global
color table does not abort decoding: its frame slot stays unset and the
second sub-image is still decoded and emitted. -/
theorem c5_counterexample :
    resolveColorMap gifC5 imgE0 = none ∧
    (loadGif gifC5).frames = [none, some ⟨1, 1, [some blue]⟩] ∧
    (loadGif gifC5).frameCount = 2 := by decide

/-- C5 (amended): a sub-image with neither a local nor a global color
table is skipped — its frame slot is left unset — and decoding continues,
still producing the remaining sub-images; the animation reports every
slurped image in its frame count. -/
theorem c5_amended (gif : GifFileType) (i : Nat) (img : SavedImage)
    (himg : gif.savedImages.get? i = some img)
    (hcm : resolveColorMap gif img = none) :
    (loadGif gif).frames.get? i = some none ∧
    (loadGif gif).frameCount = gif.savedImages.length := by
  refine ⟨?_, rfl⟩
  have hlt0 : i < gif.savedImages.length := by
    by_contra hge
    rw [List.get?_eq_none.mpr (by omega)] at himg
    exact Option.noConfusion himg
  have hlt : i < (frameOuts gif).length := by
    rw [frameOuts_length]
    exact hlt0
  obtain ⟨r, hr⟩ : ∃ r, (frameOuts gif).get? i = some r :=
    ⟨_, List.get?_eq_get hlt⟩
  obtain ⟨img2, himg2, hrstep⟩ := frameOuts_get gif i r hr
  rw [himg] at himg2
  injection himg2 with himg2e
  subst himg2e
  have hdrawn : r.drawn = none :=
    (congrArg FrameOut.drawn hrstep).trans
      (stepFrame_drawn_none gif i r.baseBefore img hcm)
  have hmap : (loadGif gif).frames.get? i =
      ((frameOuts gif).get? i).map (·.drawn) :=
    List.get?_map _ _ _
  rw [hmap, hr]
  simp [hdrawn]

/-- C5 amended witness at the concrete two-image container. -/
theorem c5_amended_witness :
    (loadGif gifC5).frames.get? 0 = some none ∧
    (loadGif gifC5).frameCount = gifC5.savedImages.length :=
  c5_amended gifC5 0 imgE0 rfl rfl

/-- C6: counterexample.  A slurped container with zero images loads
successfully into an animation whose frame count is 0; nothing fails. -/
theorem c6_counterexample :
    (loadGif gifC6).frameCount = 0 ∧ (loadGif gifC6).frames = [] := by decide

/-- C6 (amended): `load_gif` performs no non-emptiness check: the frame
count, the frame list and the delay list all have exactly the slurped
image count, zero included. -/
theorem c6_amended (gif : GifFileType) :
    (loadGif gif).frameCount = gif.savedImages.length ∧
    (loadGif gif).frames.length = gif.savedImages.length ∧
    (loadGif gif).delays.length = gif.savedImages.length := by
  refine ⟨rfl, ?_, ?_⟩ <;> simp [loadGif, frameOuts_length]

def imgA : SavedImage := ⟨⟨0, 0, 1, 1, none⟩, [0], ⟨1, 0, -1⟩⟩

def imgB : SavedImage := ⟨⟨0, 0, 1, 1, none⟩, [0], ⟨0, 0, 0⟩⟩

def gifC2 : GifFileType := ⟨1, 1, some gtab, [imgA, imgB]⟩

def imgD0 : SavedImage := ⟨⟨0, 0, 1, 1, none⟩, [0], ⟨2, 0, -1⟩⟩

def imgD1 : SavedImage := ⟨⟨0, 0, 1, 1, none⟩, [0], ⟨0, 0, -1⟩⟩

def gifC3 : GifFileType := ⟨1, 1, some gtab, [imgD0, imgD1]⟩

/-- C2: counterexample.  Frame 0 has disposal `DISPOSE_DO_NOT` and paints
the single canvas pixel red, so the accumulated base canvas before frame 1
holds that red pixel; frame 1 has disposal `None`.  The claim predicts the
canvas is left as-is (frame 1 drawn on top of the accumulated state), but
the code keys the copy on the *current* frame's disposal mode (line 64),
so frame 1 is drawn onto a freshly cleared, fully transparent surface
instead. -/
theorem c2_counterexample :
    imgA.gcb.disposalMode = DISPOSE_DO_NOT ∧
    imgB.gcb.disposalMode = DISPOSAL_UNSPECIFIED ∧
    ((frameOuts gifC2).get? 1).map (fun r => (r.baseBefore, r.preDraw)) =
      some (⟨1, 1, [some red]⟩, some (mkSurface 1 1)) ∧
    (⟨1, 1, [some red]⟩ : Surface) ≠ mkSurface 1 1 := by decide

/-- C2 (amended): whether the current sub-image is drawn on top of the
accumulated canvas state is decided by the current frame's *own* disposal
mode, not the previous frame's: for every frame after the first that has a
color map, the canvas it is drawn onto is the accumulated base composited
under a fresh surface exactly when its own disposal mode is
`DISPOSE_DO_NOT`, and a fully transparent surface otherwise. -/
theorem c2_amended (gif : GifFileType) (i : Nat) (r : FrameOut)
    (hr : (frameOuts gif).get? i = some r) (hi : 0 < i)
    (img : SavedImage) (himg : gif.savedImages.get? i = some img)
    (cm : ColorMapObject) (hcm : resolveColorMap gif img = some cm) :
    r.preDraw =
      some (if img.gcb.disposalMode = DISPOSE_DO_NOT then
          blitSurface r.baseBefore (mkSurface gif.sWidth gif.sHeight)
        else mkSurface gif.sWidth gif.sHeight) := by
  obtain ⟨img2, himg2, hrstep⟩ := frameOuts_get gif i r hr
  rw [himg] at himg2
  injection himg2 with himg2e
  subst himg2e
  have hpre := (congrArg FrameOut.preDraw hrstep).trans
    (stepFrame_preDraw_some gif i r.baseBefore img cm hcm)
  rw [hpre]
  by_cases hmode : img.gcb.disposalMode = DISPOSE_DO_NOT
  · simp [hmode, hi]
  · simp [hmode]

/-- C2 amended witness: frame 1 of the concrete animation has disposal
`None`, and its pre-draw canvas is the fully transparent surface. -/
theorem c2_amended_witness :
    (⟨⟨1, 1, [some red]⟩, some (mkSurface 1 1), some (mkSurface 1 1),
        ⟨1, 1, [some red]⟩, 100⟩ : FrameOut).preDraw =
      some (if imgB.gcb.disposalMode = DISPOSE_DO_NOT then
          blitSurface (⟨1, 1, [some red]⟩ : Surface)
            (mkSurface gifC2.sWidth gifC2.sHeight)
        else mkSurface gifC2.sWidth gifC2.sHeight) :=
  c2_amended gifC2 1
    ⟨⟨1, 1, [some red]⟩, some (mkSurface 1 1), some (mkSurface 1 1),
      ⟨1, 1, [some red]⟩, 100⟩
    (by decide) (by decide) imgB (by decide) gtab (by decide)

/-- C3: in the two-frame animation whose first frame has disposal
`RestoreToBackground` and a full-canvas rectangle, the canvas onto which
frame 2 is drawn is fully transparent.  (The code reaches this state
because a frame's surface is only seeded from the accumulated base when
its own mode is `DISPOSE_DO_NOT`, and a `DISPOSE_BACKGROUND` frame never
updates the accumulated base, which therefore stays fully transparent.) -/
theorem c3_predraw_transparent (gif : GifFileType) (f0 f1 : SavedImage)
    (hims : gif.savedImages = [f0, f1])
    (hmode : f0.gcb.disposalMode = DISPOSE_BACKGROUND)
    (hrect : f0.imageDesc.left = 0 ∧ f0.imageDesc.top = 0 ∧
      f0.imageDesc.width = gif.sWidth ∧ f0.imageDesc.height = gif.sHeight)
    (cm : ColorMapObject) (hcm : resolveColorMap gif f1 = some cm) :
    ((frameOuts gif).get? 1).bind (·.preDraw) =
      some (mkSurface gif.sWidth gif.sHeight) := by
  have hmode1 : f0.gcb.disposalMode ≠ DISPOSE_DO_NOT := by
    rw [hmode]
    decide
  have hbase : (stepFrame gif 0 (mkSurface gif.sWidth gif.sHeight)
      f0).baseAfter = mkSurface gif.sWidth gif.sHeight :=
    stepFrame_baseAfter_of_mode_ne gif 0 _ f0 hmode1
  have houts : frameOuts gif =
      [stepFrame gif 0 (mkSurface gif.sWidth gif.sHeight) f0,
        stepFrame gif 1 (mkSurface gif.sWidth gif.sHeight) f1] := by
    rw [frameOuts, hims, runFrames, runFrames, runFrames, hbase]
  rw [houts]
  have hpre := stepFrame_preDraw_some gif 1
    (mkSurface gif.sWidth gif.sHeight) f1 cm hcm
  simp only [List.get?_cons_succ, List.get?_cons_zero, Option.bind_some,
    Option.some_bind, hpre]
  by_cases hm1 : f1.gcb.disposalMode = DISPOSE_DO_NOT
  · simp only [hm1, and_true, if_pos Nat.zero_lt_one]
    rw [blitSurface_blank _ _ _ (by simp [mkSurface])]
  · simp [hm1]

/-- C3 witness: the concrete two-frame animation. -/
theorem c3_witness :
    ((frameOuts gifC3).get? 1).bind (·.preDraw) =
      some (mkSurface gifC3.sWidth gifC3.sHeight) :=
  c3_predraw_transparent gifC3 imgD0 imgD1 rfl rfl
    ⟨rfl, rfl, rfl, rfl⟩ gtab rfl

theorem drawPixelT_transparent (gcb : GraphicsControlBlock)
    (cm : ColorMapObject) (img : SavedImage) (st : Surface × List Nat)
    (y x : Nat)
    (h : ((img.rasterBits.getD (y * img.imageDesc.width + x) 0 : Int)) =
      gcb.transparentColor) :
    drawPixelT gcb cm img st y x = st := by
  simp only [drawPixelT]
  rw [if_pos h]

theorem drawPixelT_clipped (gcb : GraphicsControlBlock) (cm : ColorMapObject)
    (img : SavedImage) (st : Surface × List Nat) (y x : Nat)
    (h : ¬(img.imageDesc.left + x < st.1.width ∧
        img.imageDesc.top + y < st.1.height)) :
    drawPixelT gcb cm img st y x = st := by
  simp only [drawPixelT]
  split <;> rfl

theorem row_major_lt (w h tx ty : Nat) (hx : tx < w) (hy : ty < h) :
    ty * w + tx < w * h := by
  have h1 : ty * w + tx < (ty + 1) * w := by
    rw [Nat.succ_mul]
    omega
  have h2 : (ty + 1) * w ≤ h * w := Nat.mul_le_mul_right _ hy
  have h3 : h * w = w * h := Nat.mul_comm _ _
  omega

/-- Invariant carried through the drawing loops: the surface keeps the
original dimensions and buffer size, and every recorded write index lies
inside the buffer. -/
def InBounds (surf : Surface) (st : Surface × List Nat) : Prop :=
  st.1.width = surf.width ∧ st.1.height = surf.height ∧
  st.1.pixels.length = surf.pixels.length ∧
  ∀ j ∈ st.2, j < surf.width * surf.height

theorem drawPixelT_inBounds (gcb : GraphicsControlBlock)
    (cm : ColorMapObject) (img : SavedImage) (surf : Surface)
    (st : Surface × List Nat) (y x : Nat) (h : InBounds surf st) :
    InBounds surf (drawPixelT gcb cm img st y x) := by
  obtain ⟨hw, hh, hl, hj⟩ := h
  simp only [drawPixelT]
  split
  · exact ⟨hw, hh, hl, hj⟩
  · split
    · next hguard =>
      refine ⟨hw, hh, ?_, ?_⟩
      · rw [setPixel, List.length_set] at *
        exact hl
      · intro j hjj
        rcases List.mem_append.mp hjj with hold | hnew
        · exact hj j hold
        · have hj2 : j = (img.imageDesc.top + y) * st.1.width +
              (img.imageDesc.left + x) := by
            simpa using hnew
          rw [hj2, hw]
          exact row_major_lt surf.width surf.height _ _
            (hw ▸ hguard.1) (hh ▸ hguard.2)
    · exact ⟨hw, hh, hl, hj⟩

theorem drawImageT_inBounds (gcb : GraphicsControlBlock)
    (cm : ColorMapObject) (img : SavedImage) (surf : Surface) :
    InBounds surf (drawImageT gcb cm img surf) := by
  rw [drawImageT]
  exact foldl_inv (InBounds surf) _ _
    (fun st y hst => foldl_inv (InBounds surf) _ _
      (fun st2 x h2 => drawPixelT_inBounds gcb cm img surf st2 y x h2) st hst)
    (surf, [])
    ⟨rfl, rfl, rfl, fun j hj => absurd hj (List.not_mem_nil j)⟩

/-- C7: a raster pixel equal to the transparent index leaves the
destination pixel untouched (the loop `continue`s without writing), and
consequently drawing a sub-image whose every raster value equals the
transparent index leaves the canvas byte-identical to its state before
the draw. -/
theorem c7_transparent_identity (gcb : GraphicsControlBlock)
    (cm : ColorMapObject) (img : SavedImage) (surf : Surface)
    (hall : ∀ v ∈ img.rasterBits, (v : Int) = gcb.transparentColor)
    (hlen : img.imageDesc.width * img.imageDesc.height ≤
      img.rasterBits.length) :
    (∀ (st : Surface × List Nat) (y x : Nat),
        ((img.rasterBits.getD (y * img.imageDesc.width + x) 0 : Int)) =
          gcb.transparentColor →
        drawPixelT gcb cm img st y x = st) ∧
    drawImage gcb cm img surf = surf := by
  refine ⟨fun st y x h => drawPixelT_transparent gcb cm img st y x h, ?_⟩
  have hpix : ∀ y < img.imageDesc.height, ∀ x < img.imageDesc.width,
      ∀ st : Surface × List Nat, drawPixelT gcb cm img st y x = st := by
    intro y hy x hx st
    apply drawPixelT_transparent
    have hidx : y * img.imageDesc.width + x < img.rasterBits.length := by
      have h1 := row_major_lt img.imageDesc.width img.imageDesc.height
        x y hx hy
      omega
    exact hall _ (getD_mem _ _ hidx 0)
  have houter : ∀ y ∈ List.range img.imageDesc.height,
      ∀ st : Surface × List Nat,
        (List.range img.imageDesc.width).foldl
          (fun st2 x => drawPixelT gcb cm img st2 y x) st = st := by
    intro y hy st
    exact foldl_fixed _ _ (fun x hx st2 =>
      hpix y (List.mem_range.mp hy) x (List.mem_range.mp hx) st2) st
  show (drawImageT gcb cm img surf).1 = surf
  rw [drawImageT, foldl_fixed _ _ houter (surf, [])]

def imgF : SavedImage := ⟨⟨0, 0, 2, 1, none⟩, [5, 5], ⟨0, 0, 5⟩⟩

/-- C7 witness: a 2x1 sub-image whose raster is entirely the transparent
index 5 leaves the canvas untouched. -/
theorem c7_witness :
    drawImage imgF.gcb gtab imgF (mkSurface 2 1) = mkSurface 2 1 :=
  (c7_transparent_identity imgF.gcb gtab imgF (mkSurface 2 1)
    (by decide) (by decide)).2

/-- C8: the emitted delay is `delay_centiseconds * 10` when the delay is
positive and the fixed minimum 100 when it is 0 (line 50), so no frame's
duration is ever 0. -/
theorem c8_delays (gif : GifFileType) :
    (loadGif gif).delays = gif.savedImages.map (fun img =>
      if 0 < img.gcb.delayTime then img.gcb.delayTime * 10 else 100) ∧
    ∀ d ∈ (loadGif gif).delays, 0 < d := by
  refine ⟨loadGif_delays gif, ?_⟩
  intro d hd
  rw [loadGif_delays] at hd
  rcases List.mem_map.mp hd with ⟨img, _, heq⟩
  subst heq
  by_cases h : 0 < img.gcb.delayTime
  · rw [if_pos h]
    exact Nat.mul_pos h (by omega)
  · rw [if_neg h]
    omega

def gifC8 : GifFileType := ⟨1, 1, some gtab,
  [⟨⟨0, 0, 1, 1, none⟩, [0], ⟨0, 5, -1⟩⟩,
   ⟨⟨0, 0, 1, 1, none⟩, [0], ⟨0, 0, -1⟩⟩]⟩

/-- C8 witness: delay 5cs gives 50ms, delay 0 gives the 100ms floor. -/
theorem c8_witness :
    0 < 50 ∧ 50 ∈ (loadGif gifC8).delays ∧
    (loadGif gifC8).delays = [50, 100] :=
  ⟨(c8_delays gifC8).2 50 (by decide), by decide, by decide⟩

/-- C9: every write of the draw loop stays inside the logical-screen
buffer — each recorded flat index is `< width * height` — the buffer's
dimensions and length never change, and any raster pixel whose target
position fails the bound check of line 77 is silently clipped: no write
happens and the surface is returned unchanged. -/
theorem c9_writes_in_bounds (gcb : GraphicsControlBlock)
    (cm : ColorMapObject) (img : SavedImage) (surf : Surface) :
    (∀ j ∈ (drawImageT gcb cm img surf).2, j < surf.width * surf.height) ∧
    (drawImageT gcb cm img surf).1.width = surf.width ∧
    (drawImageT gcb cm img surf).1.height = surf.height ∧
    (drawImageT gcb cm img surf).1.pixels.length = surf.pixels.length ∧
    ∀ (st : Surface × List Nat) (y x : Nat),
      ¬(img.imageDesc.left + x < st.1.width ∧
          img.imageDesc.top + y < st.1.height) →
      drawPixelT gcb cm img st y x = st := by
  obtain ⟨hw, hh, hl, hj⟩ := drawImageT_inBounds gcb cm img surf
  exact ⟨hj, hw, hh, hl, fun st y x h =>
    drawPixelT_clipped gcb cm img st y x h⟩

/-- C9 witness: the one write of the concrete single-pixel draw lands at
flat index 0, inside the 1x1 buffer. -/
theorem c9_witness :
    0 < (mkSurface 1 1).width * (mkSurface 1 1).height ∧
    (drawImageT imgA.gcb gtab imgA (mkSurface 1 1)).2 = [0] :=
  ⟨(c9_writes_in_bounds imgA.gcb gtab imgA (mkSurface 1 1)).1 0 (by decide),
   by decide⟩

/-- C10: every stored delay of a loaded animation is at least 10ms (hence
positive); each loop iteration of `update_gif` strictly decreases the
remaining elapsed time; the loop terminates — its result is the same for
every sufficient fuel and satisfies the loop exit condition — and it
leaves `current_frame` inside `[0, frame_count)`. -/
theorem c10_update_terminates (gif : GifFileType) (cur elapsed : Nat)
    (hcur : cur < (loadGif gif).frameCount) :
    (∀ d ∈ (loadGif gif).delays, 10 ≤ d) ∧
    (∀ c2 e2, c2 < (loadGif gif).frameCount →
      (loadGif gif).delays.getD c2 0 ≤ e2 →
      e2 - (loadGif gif).delays.getD c2 0 < e2) ∧
    (updateLoop (loadGif gif).delays (loadGif gif).frameCount (elapsed + 1)
        cur elapsed).1 < (loadGif gif).frameCount ∧
    (updateLoop (loadGif gif).delays (loadGif gif).frameCount (elapsed + 1)
        cur elapsed).2 <
      (loadGif gif).delays.getD
        (updateLoop (loadGif gif).delays (loadGif gif).frameCount
          (elapsed + 1) cur elapsed).1 0 ∧
    ∀ fuel, elapsed < fuel →
      updateLoop (loadGif gif).delays (loadGif gif).frameCount fuel cur
          elapsed =
        updateLoop (loadGif gif).delays (loadGif gif).frameCount
          (elapsed + 1) cur elapsed := by
  have h10 : ∀ d ∈ (loadGif gif).delays, 10 ≤ d := by
    intro d hd
    rw [loadGif_delays] at hd
    rcases List.mem_map.mp hd with ⟨img, _, heq⟩
    subst heq
    by_cases h : 0 < img.gcb.delayTime
    · rw [if_pos h]
      calc 10 = 1 * 10 := by omega
        _ ≤ img.gcb.delayTime * 10 := Nat.mul_le_mul_right _ h
    · rw [if_neg h]
      omega
  have hpos : ∀ d ∈ (loadGif gif).delays, 0 < d := by
    intro d hd
    have := h10 d hd
    omega
  have hspec := updateLoop_spec (loadGif gif).delays
    (loadGif gif).frameCount (loadGif_delays_length gif) hpos
    (elapsed + 1) cur elapsed (by omega) hcur
  refine ⟨h10, ?_, hspec.1, hspec.2.1, hspec.2.2⟩
  intro c2 e2 hc2 hle
  have hd2 : 0 < (loadGif gif).delays.getD c2 0 := by
    apply hpos
    apply getD_mem
    rw [loadGif_delays_length]
    exact hc2
  omega

/-- C10 witness: a two-frame animation with delays 50 and 100, advanced by
120ms of elapsed time, ends on a valid frame index with the same result
for any larger fuel. -/
theorem c10_witness :
    (10 ≤ 50 ∧ 50 ∈ (loadGif gifC8).delays) ∧
    (updateLoop (loadGif gifC8).delays (loadGif gifC8).frameCount 121 0
        120).1 < (loadGif gifC8).frameCount ∧
    updateLoop (loadGif gifC8).delays (loadGif gifC8).frameCount 500 0
        120 =
      updateLoop (loadGif gifC8).delays (loadGif gifC8).frameCount 121 0
        120 := by
  have h := c10_update_terminates gifC8 0 120 (by decide)
  exact ⟨⟨h.1 50 (by decide), by decide⟩, h.2.2.1, h.2.2.2.2 500 (by decide)⟩

end GifClock
